import Mathlib

/-!
A verification development for the collator-staking pallet (`src/src/lib.rs`).

The pallet state is shallowly embedded: storage maps become association
lists (finite maps with a default value), balances become `Nat` (the
`Balance` type is an unsigned machine integer; the saturating arithmetic
used by the source never wraps, and every scenario analysed here stays far
below the word size, so unbounded `Nat` addition and multiplication model
`saturating_add` / `saturating_mul` exactly), block numbers and session
indices become `Nat`, and account identifiers become `Nat`.  Fallible
operations return `Except Err PState`; a Rust panic (e.g. `Vec::remove`
out of bounds, or an integer division by zero) is modelled as the distinct
error `Err.panic` or as `Option.none` where the source swallows `Result`
errors but cannot swallow panics.

Storage semantics matter for faithfulness: `try_mutate` passes a local
copy of the stored value to its closure and only writes it back on `Ok`,
so reads of the same storage item *inside* the closure observe the old
value.  The embedding reproduces this explicitly where it occurs
(`do_register_as_candidate`, `do_stake_at_position`).
-/

abbrev Acct := Nat
abbrev Bal := Nat

/-- Finite map as an association list: first entry with the key wins. -/
def mfind {α β : Type} [DecidableEq α] (m : List (α × β)) (k : α) : Option β :=
  (m.find? (fun e => decide (e.1 = k))).map (·.2)

/-- Lookup with the `ValueQuery` default `0`. -/
def mget {α : Type} [DecidableEq α] (m : List (α × Bal)) (k : α) : Bal :=
  (mfind m k).getD 0

/-- Update the first binding of a key, or append the binding if absent. -/
def mset {α β : Type} [DecidableEq α] : List (α × β) → α → β → List (α × β)
  | [], k, v => [(k, v)]
  | e :: t, k, v => if e.1 = k then (k, v) :: t else e :: mset t k v

/-- Remove every binding of a key. -/
def mdel {α β : Type} [DecidableEq α] (m : List (α × β)) (k : α) : List (α × β) :=
  m.filter (fun e => !(decide (e.1 = k)))

/-- `CandidateInfo` (src/src/lib.rs lines 191-196). -/
structure CandidateInfo where
  who : Acct
  deposit : Bal
  deriving DecidableEq, Repr

/-- `UnstakeRequest` (src/src/lib.rs lines 202-207). -/
structure UnstakeRequest where
  block : Nat
  amount : Bal
  deriving DecidableEq, Repr

/-- `Error` variants of the pallet that the embedded operations can raise
(src/src/lib.rs lines 407-451), plus `panic` for Rust panics.  The
`CollatorIdOf` conversion is modelled as the identity (the pallet ships
`IdentityCollator`), so `NoAssociatedCollatorId` cannot arise and key
checks reduce to `CollatorNotRegistered`. -/
inductive Err where
  | tooManyCandidates
  | tooFewEligibleCollators
  | alreadyCandidate
  | notCandidate
  | alreadyInvulnerable
  | collatorNotRegistered
  | insertToCandidateListFailed
  | insufficientBond
  | insufficientStake
  | tooManyUnstakingRequests
  | canRegister
  | noFunds
  | panic
  deriving DecidableEq, Repr

/-- The `Config` constants of the pallet (src/src/lib.rs lines 131-185)
together with the environment: the `ValidatorRegistration` oracle, the pot
account and the currency existential deposit. -/
structure Config where
  maxCandidates : Nat
  minEligibleCollators : Nat
  kickThreshold : Nat
  minStake : Bal
  maxStakedCandidates : Nat
  collatorUnstakingDelay : Nat
  userUnstakingDelay : Nat
  existentialDeposit : Bal
  registered : Acct → Bool
  potAccount : Acct

/-- The pallet storage (src/src/lib.rs lines 213-312) plus the two
balance maps of the `ReservableCurrency`. -/
structure PState where
  invulnerables : List Acct
  candidateList : List CandidateInfo
  lastAuthoredBlock : List (Acct × Nat)
  candidacyBond : Bal
  stake : List ((Acct × Acct) × Bal)
  unstaking : List (Acct × List UnstakeRequest)
  collatorRewardPct : Nat
  totalBlocks : List (Nat × Nat)
  rewards : List (Nat × Bal)
  producedBlocks : List ((Nat × Acct) × Nat)
  autocompound : List (Acct × Nat)
  currentSession : Nat
  freeBal : List (Acct × Bal)
  reservedBal : List (Acct × Bal)
  deriving DecidableEq, Repr

/-- `Currency::reserve`: move funds from free to reserved, failing when
the free balance is insufficient. -/
def reserveF (st : PState) (a : Acct) (amt : Bal) : Option PState :=
  if amt ≤ mget st.freeBal a then
    some { st with
      freeBal := mset st.freeBal a (mget st.freeBal a - amt),
      reservedBal := mset st.reservedBal a (mget st.reservedBal a + amt) }
  else
    none

/-- `Currency::unreserve`: move at most the reserved amount back to free;
never fails. -/
def unreserveF (st : PState) (a : Acct) (amt : Bal) : PState :=
  let moved := min amt (mget st.reservedBal a)
  { st with
    freeBal := mset st.freeBal a (mget st.freeBal a + moved),
    reservedBal := mset st.reservedBal a (mget st.reservedBal a - moved) }

/-- `Currency::transfer` with `KeepAlive`: the sender must retain the
existential deposit. -/
def transferKeepAlive (cfg : Config) (st : PState) (src dst : Acct) (amt : Bal) :
    Option PState :=
  if amt + cfg.existentialDeposit ≤ mget st.freeBal src then
    let st1 := { st with freeBal := mset st.freeBal src (mget st.freeBal src - amt) }
    some { st1 with freeBal := mset st1.freeBal dst (mget st1.freeBal dst + amt) }
  else
    none

/-- `Pallet::is_invulnerable` (src/src/lib.rs lines 919-921): binary
search on the sorted invulnerable list, i.e. membership. -/
def isInvulnerable (st : PState) (a : Acct) : Bool :=
  st.invulnerables.contains a

/-- `Pallet::get_candidate` (src/src/lib.rs lines 906-914). -/
def getCandidatePos (st : PState) (a : Acct) : Option Nat :=
  st.candidateList.findIdx? (fun c => decide (c.who = a))

/-- `Pallet::eligible_collators` (src/src/lib.rs lines 1084-1090). -/
def eligibleCollators (st : PState) : Nat :=
  st.candidateList.length + st.invulnerables.length

/-- `Pallet::reassign_candidate_position` (src/src/lib.rs lines
1035-1047): remove the entry at `pos` (a Rust `Vec::remove`, which panics
when out of bounds) and reinsert it before the first entry of deposit at
least its own. -/
def reassignCandidatePosition (cfg : Config) (pos : Nat) (st : PState) :
    Except Err (Nat × PState) :=
  if pos < st.candidateList.length then
    let info := st.candidateList.getD pos ⟨0, 0⟩
    let cs := st.candidateList.eraseIdx pos
    let newPos := (cs.findIdx? (fun c => decide (info.deposit ≤ c.deposit))).getD cs.length
    if cs.length < cfg.maxCandidates then
      .ok (newPos, { st with candidateList := cs.insertIdx newPos info })
    else
      .error .insertToCandidateListFailed
  else
    .error .panic

/-- `Pallet::add_stake_to_candidate` (src/src/lib.rs lines 1055-1080).
The candidate record is received *by value* here, mirroring the source,
which obtains it from `&mut CandidateList::<T>::get()[position]` — a
mutable borrow into a temporary copy of the storage value.  The updated
record is returned to the caller, which (like the source) drops it. -/
def addStakeToCandidate (cfg : Config) (staker : Acct) (amount : Bal)
    (candidate : CandidateInfo) (st : PState) :
    Except Err (CandidateInfo × Bal × PState) :=
  let cur := mget st.stake (candidate.who, staker)
  let finalStakerStake := cur + amount
  if finalStakerStake < cfg.minStake then
    .error .insufficientStake
  else
    match reserveF st staker amount with
    | none => .error .noFunds
    | some st1 =>
      let st2 := { st1 with stake := mset st1.stake (candidate.who, staker) finalStakerStake }
      .ok ({ candidate with deposit := candidate.deposit + amount }, finalStakerStake, st2)

/-- `Pallet::do_stake_at_position` (src/src/lib.rs lines 1012-1030).  The
source takes `&mut CandidateList::<T>::get()[position]`: the candidate is
a temporary copy of the stored entry, so the deposit increment performed
by `add_stake_to_candidate` is never written back to storage. -/
def doStakeAtPosition (cfg : Config) (staker : Acct) (amount : Bal)
    (pos : Nat) (sort : Bool) (st : PState) : Except Err (Nat × PState) :=
  if pos < st.candidateList.length then
    let candidate := st.candidateList.getD pos ⟨0, 0⟩
    match addStakeToCandidate cfg staker amount candidate st with
    | .error e => .error e
    | .ok (_, _, st1) =>
      if sort then
        reassignCandidatePosition cfg pos st1
      else
        .ok (pos, st1)
  else
    .error .notCandidate

/-- `Pallet::do_stake_for_account` (src/src/lib.rs lines 926-934). -/
def doStakeForAccount (cfg : Config) (staker : Acct) (amount : Bal)
    (candidate : Acct) (sort : Bool) (st : PState) : Except Err (Nat × PState) :=
  match getCandidatePos st candidate with
  | none => .error .notCandidate
  | some pos => doStakeAtPosition cfg staker amount pos sort st

/-- The `stake` extrinsic (src/src/lib.rs lines 825-836). -/
def stakeCall (cfg : Config) (who candidate : Acct) (amount : Bal)
    (st : PState) : Except Err PState :=
  (doStakeForAccount cfg who amount candidate true st).map (·.2)

/-- `Pallet::do_unstake` (src/src/lib.rs lines 1100-1137): take the whole
ledger entry; refund immediately without penalty, otherwise append an
unstake request (`try_push` on a vector bounded by `MaxStakedCandidates`)
with the collator or user delay; finally re-sort the candidate at
`maybePos`.  The candidate's stored deposit is never decremented. -/
def doUnstake (cfg : Config) (now : Nat) (staker candidate : Acct)
    (hasPenalty : Bool) (maybePos : Option Nat) (st : PState) :
    Except Err (Bal × PState) :=
  let s := mget st.stake (candidate, staker)
  let st0 := { st with stake := mdel st.stake (candidate, staker) }
  if s = 0 then
    .ok (0, st0)
  else
    let afterFunds : Except Err PState :=
      if hasPenalty then
        let delay := if staker = candidate then cfg.collatorUnstakingDelay
                     else cfg.userUnstakingDelay
        let q := (mfind st0.unstaking staker).getD []
        if q.length < cfg.maxStakedCandidates then
          .ok { st0 with
            unstaking := mset st0.unstaking staker (q ++ [⟨now + delay, s⟩]) }
        else
          .error .tooManyUnstakingRequests
      else
        .ok (unreserveF st0 staker s)
    match afterFunds with
    | .error e => .error e
    | .ok st1 =>
      match maybePos with
      | none => .ok (s, st1)
      | some pos =>
        match reassignCandidatePosition cfg pos st1 with
        | .error e => .error e
        | .ok (_, st2) => .ok (s, st2)

/-- The `unstake_from` extrinsic (src/src/lib.rs lines 844-852). -/
def unstakeFrom (cfg : Config) (now : Nat) (who candidate : Acct)
    (st : PState) : Except Err PState :=
  match getCandidatePos st candidate with
  | some pos => (doUnstake cfg now who candidate true (some pos) st).map (·.2)
  | none => (doUnstake cfg now who candidate false none st).map (·.2)

/-- The claiming loop of `Pallet::do_claim` (src/src/lib.rs lines
989-998): walk the queue from the front, stopping at the first request
whose block is still in the future, unreserving each passed request. -/
def claimLoop (now : Nat) (who : Acct) :
    List UnstakeRequest → PState → List UnstakeRequest × PState
  | [], st => ([], st)
  | r :: rs, st =>
    if now < r.block then (r :: rs, st)
    else claimLoop now who rs (unreserveF st who r.amount)

/-- `Pallet::do_claim` (src/src/lib.rs lines 985-1005): never fails. -/
def doClaim (now : Nat) (who : Acct) (st : PState) : PState :=
  let q := (mfind st.unstaking who).getD []
  let res := claimLoop now who q st
  { res.2 with unstaking := mset res.2.unstaking who res.1 }

/-- `Pallet::try_remove_candidate_at_position` (src/src/lib.rs lines
1142-1160): `Vec::remove` at `idx` (panics out of bounds), optionally
delete the last-authored entry, then `do_unstake` the candidate's
self-stake with no position reassignment. -/
def tryRemoveCandidateAtPosition (cfg : Config) (now : Nat) (idx : Nat)
    (removeLastAuthored hasPenalty : Bool) (st : PState) :
    Except Err (CandidateInfo × PState) :=
  if idx < st.candidateList.length then
    let candidate := st.candidateList.getD idx ⟨0, 0⟩
    let st1 := if removeLastAuthored then
        { st with lastAuthoredBlock := mdel st.lastAuthoredBlock candidate.who }
      else st
    match doUnstake cfg now candidate.who candidate.who hasPenalty none st1 with
    | .error e => .error e
    | .ok (_, st2) =>
      .ok (candidate, { st2 with candidateList := st.candidateList.eraseIdx idx })
  else
    .error .panic

/-- `Pallet::try_remove_candidate_from_account` (src/src/lib.rs lines
1165-1175). -/
def tryRemoveCandidateFromAccount (cfg : Config) (now : Nat) (who : Acct)
    (removeLastAuthored hasPenalty : Bool) (st : PState) :
    Except Err (CandidateInfo × PState) :=
  match getCandidatePos st who with
  | none => .error .notCandidate
  | some idx => tryRemoveCandidateAtPosition cfg now idx removeLastAuthored hasPenalty st

/-- The `take_candidate_slot` extrinsic (src/src/lib.rs lines 777-816).
After the checks it removes the target (without penalty) and emits a
`CandidateReplaced` event; no code reserves the caller's deposit or
inserts the caller into the candidate list. -/
def takeCandidateSlot (cfg : Config) (now : Nat) (who : Acct)
    (deposit : Bal) (target : Acct) (st : PState) : Except Err PState :=
  if isInvulnerable st who then .error .alreadyInvulnerable
  else if deposit < st.candidacyBond then .error .insufficientBond
  else if !(cfg.registered who) then .error .collatorNotRegistered
  else if st.candidateList.length < cfg.maxCandidates then .error .canRegister
  else
    match tryRemoveCandidateFromAccount cfg now target true false st with
    | .error e => .error e
    | .ok (targetInfo, st1) =>
      if targetInfo.deposit < deposit then .ok st1
      else .error .insufficientBond

/-- Entries of the `Stake` double map whose first key is `c`, in storage
iteration order (`iter_prefix`), as (staker, amount) pairs. -/
def stakeEntriesOf (st : PState) (c : Acct) : List (Acct × Bal) :=
  st.stake.filterMap (fun e => if e.1.1 = c then some (e.1.2, e.2) else none)

/-- `Pallet::do_register_as_candidate` (src/src/lib.rs lines 940-982).
The body runs inside `CandidateList::try_mutate`, whose closure works on
a local copy of the list while storage reads performed by the nested
`do_stake_at_position` still observe the old stored list; the outer
closure's copy is written back last. -/
def doRegisterAsCandidate (cfg : Config) (now : Nat) (who : Acct)
    (st : PState) : Except Err PState :=
  let deposit := st.candidacyBond
  let alreadyStaked := (stakeEntriesOf st who).foldl (fun a e => a + e.2) 0
  if st.candidateList.any (fun c => decide (c.who = who)) then
    .error .alreadyCandidate
  else
    let st1 := { st with
      lastAuthoredBlock := mset st.lastAuthoredBlock who (now + cfg.kickThreshold) }
    let info : CandidateInfo := ⟨who, alreadyStaked⟩
    if st.candidateList.length < cfg.maxCandidates then
      match doStakeAtPosition cfg who deposit 0 (alreadyStaked ≠ 0) st1 with
      | .error e => .error e
      | .ok (_, st2) =>
        .ok { st2 with candidateList := info :: st.candidateList }
    else
      .error .insertToCandidateListFailed

/-- The `register_as_candidate` extrinsic (src/src/lib.rs lines 638-667). -/
def registerAsCandidate (cfg : Config) (now : Nat) (who : Acct)
    (st : PState) : Except Err PState :=
  if !(st.candidateList.length < cfg.maxCandidates) then .error .tooManyCandidates
  else if isInvulnerable st who then .error .alreadyInvulnerable
  else if !(cfg.registered who) then .error .collatorNotRegistered
  else doRegisterAsCandidate cfg now who st

/-- The `set_candidacy_bond` extrinsic (src/src/lib.rs lines 594-630):
when the bond increases and the list is non-empty, drain the prefix up to
the first candidate whose deposit reaches the new bond, deleting each
drained candidate's last-authored entry.  Nothing else is touched. -/
def setCandidacyBond (bond : Bal) (st : PState) : PState :=
  let st1 := { st with candidacyBond := bond }
  let initialLen := st1.candidateList.length
  if st.candidacyBond < bond ∧ 0 < initialLen then
    let firstSafe := (st1.candidateList.findIdx? (fun c => decide (bond ≤ c.deposit))).getD initialLen
    let kicked := st1.candidateList.take firstSafe
    { st1 with
      candidateList := st1.candidateList.drop firstSafe,
      lastAuthoredBlock := kicked.foldl (fun m c => mdel m c.who) st1.lastAuthoredBlock }
  else
    st1

/-- One step of the `filter_map` closure in
`Pallet::kick_stale_candidates` (src/src/lib.rs lines 1269-1291): decide
one enumerated candidate, threading the state.  `Result` errors of the
removal are discarded (`let _ = ...`) but a panic aborts (`none`). -/
def kickStep (cfg : Config) (now : Nat) (acc : List Acct × PState)
    (pc : Nat × Acct) : Option (List Acct × PState) :=
  let retained := acc.1
  let s := acc.2
  let pos := pc.1
  let c := pc.2
  let lastBlock := mget s.lastAuthoredBlock c
  let sinceLast := now - lastBlock
  let isLazy := cfg.kickThreshold ≤ sinceLast
  if isInvulnerable s c then
    match tryRemoveCandidateAtPosition cfg now pos false false s with
    | .ok (_, s1) => some (retained, s1)
    | .error .panic => none
    | .error _ => some (retained, s)
  else if eligibleCollators s ≤ cfg.minEligibleCollators ∨ ¬ isLazy then
    some (retained ++ [c], s)
  else
    match tryRemoveCandidateAtPosition cfg now pos true false s with
    | .ok (_, s1) => some (retained, s1)
    | .error .panic => none
    | .error _ => some (retained, s)

/-- `Pallet::kick_stale_candidates` (src/src/lib.rs lines 1262-1296):
a `filter_map` over the *enumerated snapshot* of candidate accounts.
Position indices come from the snapshot while removals mutate the live
list, exactly as in the source.  Returns the retained accounts (whose
`count()` the source returns) and the final state. -/
def kickStaleCandidates (cfg : Config) (now : Nat) (st : PState)
    (cands : List Acct) : Option (List Acct × PState) :=
  cands.enum.foldlM (kickStep cfg now) ([], st)

/-- `Pallet::do_reward_single` (src/src/lib.rs lines 1226-1233): a
`KeepAlive` transfer from the pot to `who`; callers log and skip on
failure. -/
def doRewardSingle (cfg : Config) (st : PState) (who : Acct) (reward : Bal) :
    Option PState :=
  transferKeepAlive cfg st cfg.potAccount who reward

/-- The staker loop body of `Pallet::do_reward_collator` (src/src/lib.rs
lines 1199-1221): pay the staker its floor-divided share (a zero candidate
deposit makes the division panic), then autocompound
`compound_percentage * stake` — the percentage is applied to the staker's
existing stake — via `do_stake_at_position` with `sort = false`, logging
and skipping any failure of either step. -/
def rewardStakerStep (cfg : Config) (pos : Nat) (collatorDeposit stakersOnly : Bal)
    (st : PState) (entry : Acct × Bal) : Option PState :=
  let staker := entry.1
  let stk := entry.2
  if collatorDeposit = 0 then none
  else
    let stakerReward := stakersOnly * stk / collatorDeposit
    match doRewardSingle cfg st staker stakerReward with
    | none => some st
    | some st2 =>
      let compound := mget st2.autocompound staker * stk / 100
      if compound = 0 then some st2
      else
        match doStakeAtPosition cfg staker compound pos false st2 with
        | .ok (_, st3) => some st3
        | .error _ => some st2

/-- `Pallet::do_reward_collator` (src/src/lib.rs lines 1181-1224): if the
collator is still a candidate, compute
`rewards_all = total_rewards * blocks / TotalBlocks(session)` (the stored
per-session total over *all* authored blocks; the division panics when it
is zero), pay `collator_percentage * rewards_all` to the collator, run the
staker loop over the `Stake` prefix, and finally re-sort the candidate. -/
def doRewardCollator (cfg : Config) (collator : Acct) (blocks session : Nat)
    (st : PState) : Option PState :=
  match getCandidatePos st collator with
  | none => some st
  | some pos =>
    let collatorInfo := st.candidateList.getD pos ⟨0, 0⟩
    let totalRewards := mget st.rewards session
    let totalSessionBlocks := mget st.totalBlocks session
    if totalSessionBlocks = 0 then none
    else
      let rewardsAll := totalRewards * blocks / totalSessionBlocks
      let collatorOnly := st.collatorRewardPct * rewardsAll / 100
      let st1 := (doRewardSingle cfg st collator collatorOnly).getD st
      let stakersOnly := totalRewards - collatorOnly
      match (stakeEntriesOf st1 collator).foldlM
          (rewardStakerStep cfg pos collatorInfo.deposit stakersOnly) st1 with
      | none => none
      | some st2 =>
        match reassignCandidatePosition cfg pos st2 with
        | .ok (_, st3) => some st3
        | .error _ => some st2

/-- `Pallet::reward_one_collator` (src/src/lib.rs lines 1299-1309): drain
one produced-blocks entry of the previous session and reward it. -/
def rewardOneCollator (cfg : Config) (currentSession : Nat) (st : PState) :
    Option PState :=
  if currentSession = 0 then some st
  else
    let prev := currentSession - 1
    match st.producedBlocks.find? (fun e => decide (e.1.1 = prev)) with
    | none => some st
    | some e =>
      let st1 := { st with producedBlocks := mdel st.producedBlocks e.1 }
      doRewardCollator cfg e.1.2 e.2 prev st1

/-- `note_author` (src/src/lib.rs lines 1346-1363): record the author's
block, bump the session's total-block counter, bump the author's
produced-blocks counter only when it is not invulnerable, then reward one
pending collator of the previous session. -/
def noteAuthor (cfg : Config) (now : Nat) (author : Acct) (st : PState) :
    Option PState :=
  let currentSession := st.currentSession
  let st1 := { st with lastAuthoredBlock := mset st.lastAuthoredBlock author now }
  let st2 := { st1 with
    totalBlocks := mset st1.totalBlocks currentSession
      (mget st1.totalBlocks currentSession + 1) }
  let st3 :=
    if isInvulnerable st2 author then st2
    else { st2 with
      producedBlocks := mset st2.producedBlocks (currentSession, author)
        (mget st2.producedBlocks (currentSession, author) + 1) }
  rewardOneCollator cfg currentSession st3

/-- Ascending order by unlock block, the order the spec asserts for the
unstaking queue. -/
def ascByUnlock : List UnstakeRequest → Bool
  | a :: b :: t => a.block ≤ b.block && ascByUnlock (b :: t)
  | _ => true

/-! ## Association map lemmas -/

theorem mfind_cons {α β : Type} [DecidableEq α] (e : α × β) (t : List (α × β))
    (k : α) : mfind (e :: t) k = if e.1 = k then some e.2 else mfind t k := by
  by_cases h : e.1 = k
  · simp [mfind, List.find?_cons_of_pos, h]
  · simp [mfind, List.find?_cons_of_neg, h]

theorem mdel_cons {α β : Type} [DecidableEq α] (e : α × β) (t : List (α × β))
    (k : α) : mdel (e :: t) k = if e.1 = k then mdel t k else e :: mdel t k := by
  by_cases h : e.1 = k <;> simp [mdel, List.filter_cons, h]

theorem mfind_mset_same {α β : Type} [DecidableEq α] (m : List (α × β))
    (k : α) (v : β) : mfind (mset m k v) k = some v := by
  induction m with
  | nil => simp [mset, mfind_cons, mfind]
  | cons e t ih =>
    by_cases h : e.1 = k
    · simp [mset, h, mfind_cons]
    · simp [mset, h, mfind_cons, ih]

theorem mfind_mset_ne {α β : Type} [DecidableEq α] (m : List (α × β))
    (k k' : α) (v : β) (h : k' ≠ k) : mfind (mset m k v) k' = mfind m k' := by
  have h2 : ¬ (k = k') := fun hh => h hh.symm
  induction m with
  | nil => simp [mset, mfind_cons, mfind, h2]
  | cons e t ih =>
    by_cases he : e.1 = k
    · have he' : ¬ (e.1 = k') := by rw [he]; exact h2
      simp [mset, he, mfind_cons, h2, he']
    · simp [mset, he, mfind_cons, ih]

theorem mget_mset_same {α : Type} [DecidableEq α] (m : List (α × Bal))
    (k : α) (v : Bal) : mget (mset m k v) k = v := by
  simp [mget, mfind_mset_same]

theorem mget_mset_ne {α : Type} [DecidableEq α] (m : List (α × Bal))
    (k k' : α) (v : Bal) (h : k' ≠ k) : mget (mset m k v) k' = mget m k' := by
  simp [mget, mfind_mset_ne m k k' v h]

theorem mfind_mdel_same {α β : Type} [DecidableEq α] (m : List (α × β))
    (k : α) : mfind (mdel m k) k = none := by
  induction m with
  | nil => simp [mdel, mfind]
  | cons e t ih =>
    by_cases h : e.1 = k
    · simp [mdel_cons, h, ih]
    · simp [mdel_cons, h, mfind_cons, ih]

theorem mfind_mdel_ne {α β : Type} [DecidableEq α] (m : List (α × β))
    (k k' : α) (h : k' ≠ k) : mfind (mdel m k) k' = mfind m k' := by
  induction m with
  | nil => simp [mdel, mfind]
  | cons e t ih =>
    by_cases he : e.1 = k
    · have he' : ¬ (e.1 = k') := fun hh => h (hh ▸ he ▸ rfl)
      have h2 : ¬ (k = k') := fun hh => h hh.symm
      simp [mdel_cons, he, mfind_cons, he', h2, ih]
    · simp [mdel_cons, he, mfind_cons, ih]

theorem mdel_of_absent {α β : Type} [DecidableEq α] (m : List (α × β))
    (k : α) (h : mfind m k = none) : mdel m k = m := by
  induction m with
  | nil => simp [mdel]
  | cons e t ih =>
    rw [mfind_cons] at h
    by_cases he : e.1 = k
    · simp [he] at h
    · simp [he] at h
      simp [mdel_cons, he, ih h]

/-! ## Concrete fixtures

`cfgA` mirrors the mock runtime configuration of the repository's test
suite (bond 10, minimum stake 2, kick threshold 10, collator delay 5,
user delay 2); account `0` plays the pot. -/

def cfgA : Config where
  maxCandidates := 20
  minEligibleCollators := 1
  kickThreshold := 10
  minStake := 2
  maxStakedCandidates := 16
  collatorUnstakingDelay := 5
  userUnstakingDelay := 2
  existentialDeposit := 1
  registered := fun _ => true
  potAccount := 0

/-- A configuration at full candidate capacity 2, for `take_candidate_slot`. -/
def cfgB : Config where
  maxCandidates := 2
  minEligibleCollators := 1
  kickThreshold := 10
  minStake := 2
  maxStakedCandidates := 16
  collatorUnstakingDelay := 5
  userUnstakingDelay := 2
  existentialDeposit := 1
  registered := fun _ => true
  potAccount := 0

/-- A configuration allowing each staker at most one staked candidate. -/
def cfgC : Config where
  maxCandidates := 20
  minEligibleCollators := 1
  kickThreshold := 10
  minStake := 2
  maxStakedCandidates := 1
  collatorUnstakingDelay := 5
  userUnstakingDelay := 2
  existentialDeposit := 1
  registered := fun _ => true
  potAccount := 0

def baseState : PState where
  invulnerables := []
  candidateList := []
  lastAuthoredBlock := []
  candidacyBond := 10
  stake := []
  unstaking := []
  collatorRewardPct := 20
  totalBlocks := []
  rewards := []
  producedBlocks := []
  autocompound := []
  currentSession := 0
  freeBal := []
  reservedBal := []

/-- Candidate 1 holds a bond of 10, fully self-staked; account 2 has 50
free to stake. -/
def stC1 : PState :=
  { baseState with
    candidateList := [⟨1, 10⟩]
    stake := [((1, 1), 10)]
    freeBal := [(2, 50)]
    reservedBal := [(1, 10)] }

/-- A full registry (capacity 2 under `cfgB`): candidates 3 and 4, each
fully self-staked and reserved; account 5 is a rich outsider. -/
def stC2 : PState :=
  { baseState with
    candidateList := [⟨3, 10⟩, ⟨4, 30⟩]
    stake := [((3, 3), 10), ((4, 4), 30)]
    lastAuthoredBlock := [(3, 1), (4, 1)]
    freeBal := [(3, 0), (5, 100)]
    reservedBal := [(3, 10), (4, 30)] }

/-- Candidate 1 is active (authored at block 20) but its deposit 5 is
below the bond 10; candidate 2 is stale (last authored at block 0);
account 9 is invulnerable, so the liveness floor is not binding. -/
def stC3 : PState :=
  { baseState with
    invulnerables := [9]
    candidateList := [⟨1, 5⟩, ⟨2, 50⟩]
    lastAuthoredBlock := [(1, 20), (2, 0)]
    stake := [((2, 2), 50)]
    freeBal := [(2, 0)]
    reservedBal := [(2, 50)] }

/-- Session 0 of a chain with invulnerable 9 and candidate 4 (staker 3
holds its whole stake); the pot (account 0) holds the 100-unit pool above
the existential deposit. -/
def stC4 : PState :=
  { baseState with
    invulnerables := [9]
    candidateList := [⟨4, 10⟩]
    stake := [((4, 3), 10)]
    rewards := [(0, 100)]
    freeBal := [(0, 101)]
    reservedBal := [(3, 10)] }

/-- Blocks of session 0: one by the invulnerable 9, one by candidate 4. -/
def c4mid : Option PState :=
  (noteAuthor cfgA 1 9 stC4).bind (fun s => noteAuthor cfgA 2 4 s)

/-- Disburse session 0 rewards during session 1. -/
def c4run : Option PState :=
  c4mid.bind (fun s => rewardOneCollator cfgA 1 s)

/-- A candidate with a produced-blocks entry for a session whose
total-blocks counter is zero. -/
def stC4z : PState :=
  { baseState with
    candidateList := [⟨4, 10⟩]
    rewards := [(0, 100)]
    freeBal := [(0, 101)] }

/-- Candidate 4 with recorded deposit 100; staker 3 holds 50 of it and
autocompounds 40 percent; session-0 pool is 10 over 1 block. -/
def stC5 : PState :=
  { baseState with
    candidateList := [⟨4, 100⟩]
    stake := [((4, 3), 50)]
    autocompound := [(3, 40)]
    rewards := [(0, 10)]
    totalBlocks := [(0, 1)]
    freeBal := [(0, 101), (3, 16)]
    reservedBal := [(3, 50)] }

/-- Account 1 is both a candidate (self-staked 10) and a staker of
candidate 2 (20). -/
def stC6 : PState :=
  { baseState with
    candidateList := [⟨1, 10⟩, ⟨2, 30⟩]
    stake := [((1, 1), 10), ((2, 1), 20)]
    reservedBal := [(1, 30)] }

/-- Account 1 self-unstakes at block 1 (collator delay 5), then unstakes
from candidate 2 at block 2 (user delay 2). -/
def c6run : Except Err PState :=
  (unstakeFrom cfgA 1 1 1 stC6).bind (fun s => unstakeFrom cfgA 2 1 2 s)

/-- Two candidates with account 5 ready to stake on both. -/
def stC8 : PState :=
  { baseState with
    candidateList := [⟨1, 10⟩, ⟨2, 10⟩]
    freeBal := [(5, 100)] }

/-- Account 5 stakes 5 on candidate 1 and then 5 on candidate 2, under a
configuration with `MaxStakedCandidates = 1`. -/
def c8run : Except Err PState :=
  (stakeCall cfgC 5 1 5 stC8).bind (fun s => stakeCall cfgC 5 2 5 s)

/-- The distinct candidates on which `staker` holds a nonzero ledger
entry. -/
def stakedCandidatesOf (st : PState) (staker : Acct) : List Acct :=
  (st.stake.filterMap
    (fun e => if e.1.2 = staker ∧ e.2 ≠ 0 then some e.1.1 else none)).dedup

/-- Candidate 1 exists; account 2 has no ledger entry on it. -/
def stC9 : PState :=
  { baseState with
    candidateList := [⟨1, 10⟩]
    stake := [((1, 1), 10)]
    freeBal := [(2, 7)] }

/-- A sorted registry with deposits 5, 7, 20 and last-authored entries. -/
def stC10 : PState :=
  { baseState with
    candidateList := [⟨1, 5⟩, ⟨2, 7⟩, ⟨3, 20⟩]
    lastAuthoredBlock := [(1, 3), (2, 4), (3, 5)]
    stake := [((1, 1), 5), ((2, 2), 7), ((3, 3), 20)]
    reservedBal := [(1, 5), (2, 7), (3, 20)] }

/-! ## Claim theorems: concrete evaluations -/

/-- C1: the conservation claim fails on the code.  Staking 20 from
account 2 onto candidate 1 (whose ledger holds only the self-stake 10)
leaves the full ledger at `[((1,1),10), ((1,2),20)]` — summing to 30 —
while the candidate's recorded deposit stays 10: `do_stake_at_position`
mutates a temporary copy of the candidate entry, so the deposit increment
of `add_stake_to_candidate` is never persisted. -/
theorem C1_stake_breaks_conservation :
    (stakeCall cfgA 2 1 20 stC1).map (fun s => (s.stake, s.candidateList)) =
      .ok ([((1, 1), 10), ((1, 2), 20)], [⟨1, 10⟩]) ∧ (10 : Bal) + 20 ≠ 10 :=
  ⟨rfl, by decide⟩

/-- C2: a successful `take_candidate_slot` (caller 5, deposit 50, target
3, registry full at capacity 2) removes the target with an *immediate*
refund (reserved balance released, no unstaking-queue entry) and never
inserts the caller: afterwards the registry holds only candidate 4, the
caller is not a candidate, and nothing was reserved from the caller. -/
theorem C2_take_slot_never_inserts_caller :
    (takeCandidateSlot cfgB 2 5 50 3 stC2).map
        (fun s => (s.candidateList, getCandidatePos s 5, mfind s.unstaking 3,
          mget s.reservedBal 5, mget s.reservedBal 3, mget s.freeBal 3)) =
      .ok ([⟨4, 30⟩], none, none, 0, 0, 10) := rfl

/-- C3: the eviction pass contradicts the claim on two points.  Candidate
1 is below the candidacy bond (deposit 5 < 10) yet recently active, and
is *retained*; stale candidate 2 is removed but its 50 are unreserved
immediately — its unstaking queue stays empty — rather than refunded
through the delayed (penalized) path. -/
theorem C3_kick_counterexample :
    (kickStaleCandidates cfgA 20 stC3 [1, 2]).map
        (fun r => (r.1.length, r.2.candidateList, mfind r.2.unstaking 2,
          mget r.2.reservedBal 2, mget r.2.freeBal 2)) =
      some (1, [⟨1, 5⟩], none, 0, 50) ∧ (5 : Bal) < stC3.candidacyBond :=
  ⟨rfl, by decide⟩

/-- C4: with one block authored by invulnerable 9 and one by candidate 4
in session 0, the session's rewardable count (the claim's denominator) is
1 while the stored total is 2; the collator is then paid
`20% × (100 × 1 / 2) = 10`, not the claimed `20% × (100 × 1 / 1) = 20`.
Moreover, with a zero total-blocks counter the payout is not skipped
gracefully: the division panics (`none`). -/
theorem C4_denominator_counterexample :
    c4mid.map (fun s => (mget s.totalBlocks 0, mget s.producedBlocks (0, 4))) =
      some (2, 1) ∧
    c4run.map (fun s => (mget s.freeBal 4, mfind s.producedBlocks (0, 4))) =
      some (10, none) ∧
    stC4.collatorRewardPct * (mget stC4.rewards 0 * 1 / 1) / 100 = 20 ∧
    (10 : Bal) ≠ 20 ∧
    doRewardCollator cfgA 4 1 0 stC4z = none :=
  ⟨rfl, rfl, by decide, by decide, rfl⟩

/-- C5: during disbursement, staker 3 (stake 50 of candidate 4's deposit
100, autocompound 40%) receives a payout of 4 yet re-stakes 20 — the code
computes `compound_percentage * stake` (40% of 50), not the claimed
percentage of the payout (40% of 4 = 1). -/
theorem C5_autocompound_applies_to_stake :
    (doRewardCollator cfgA 4 1 0 stC5).map
        (fun s => (mget s.stake (4, 3), mget s.freeBal 3)) = some (70, 0) ∧
    (70 : Bal) = 50 + mget stC5.autocompound 3 * 50 / 100 ∧
    mget stC5.autocompound 3 * 4 / 100 = 1 ∧ (20 : Bal) ≠ 1 :=
  ⟨rfl, by decide, by decide, by decide⟩

/-- C6: the unstaking queue is not kept sorted.  Account 1 self-unstakes
at block 1 (unlock 1 + 5 = 6) and then unstakes from candidate 2 at
block 2 (unlock 2 + 2 = 4); `do_unstake` appends, so the queue ends as
`[6, 4]` — descending. -/
theorem C6_queue_not_sorted :
    c6run.map (fun s => (mfind s.unstaking 1).getD []) =
      .ok [⟨6, 10⟩, ⟨4, 20⟩] ∧
    ascByUnlock [⟨6, 10⟩, ⟨4, 20⟩] = false := ⟨rfl, rfl⟩

/-- C7: a due request is not released when an undue one precedes it.  In
the `[6, 4]` queue of `c6run`, claiming at block 5 (at/after the second
request's unlock block 4) releases nothing: the queue and the reserved
balance are unchanged. -/
theorem C7_due_request_not_released :
    c6run.map (fun s =>
      ((mfind (doClaim 5 1 s).unstaking 1).getD [],
        mget (doClaim 5 1 s).reservedBal 1, mget (doClaim 5 1 s).freeBal 1)) =
      .ok ([⟨6, 10⟩, ⟨4, 20⟩], 30, 0) ∧ (4 : Nat) ≤ 5 := ⟨rfl, by decide⟩

/-- C8: with `MaxStakedCandidates = 1`, account 5 successfully stakes on
two distinct candidates — the per-staker cardinality bound is not
enforced by the code. -/
theorem C8_staked_candidates_exceed_bound :
    c8run.map (fun s => stakedCandidatesOf s 5) = .ok [1, 2] ∧
    cfgC.maxStakedCandidates < 2 := ⟨rfl, by decide⟩

/-- C9: unstaking with a zero ledger entry does not fail: `do_unstake`
takes the (absent) entry and returns `Ok`, leaving the state unchanged —
there is no `NothingToUnstake` error in the pallet. -/
theorem C9_zero_unstake_succeeds :
    unstakeFrom cfgA 5 2 1 stC9 = .ok stC9 := rfl

/-! ## Frame and structure lemmas about the embedded operations -/

theorem reassign_frame (cfg : Config) (pos : Nat) (st : PState)
    (out : Nat × PState)
    (h : reassignCandidatePosition cfg pos st = .ok out) :
    out.2.candidateList.length = st.candidateList.length ∧
    out.2.unstaking = st.unstaking ∧ out.2.stake = st.stake ∧
    out.2.freeBal = st.freeBal ∧ out.2.reservedBal = st.reservedBal ∧
    out.2.lastAuthoredBlock = st.lastAuthoredBlock := by
  simp only [reassignCandidatePosition] at h
  split at h
  case isFalse hlt => exact absurd h (by simp)
  case isTrue hlt =>
    split at h
    case isFalse hmax => exact absurd h (by simp)
    case isTrue hmax =>
      injection h with h2
      subst h2
      refine ⟨?_, rfl, rfl, rfl, rfl, rfl⟩
      have hnp : ((st.candidateList.eraseIdx pos).findIdx?
          (fun c => decide ((st.candidateList.getD pos ⟨0, 0⟩).deposit ≤ c.deposit))).getD
            (st.candidateList.eraseIdx pos).length ≤
          (st.candidateList.eraseIdx pos).length := by
        cases hf : (st.candidateList.eraseIdx pos).findIdx?
            (fun c => decide ((st.candidateList.getD pos ⟨0, 0⟩).deposit ≤ c.deposit)) with
        | none => simp
        | some i =>
          simp only [Option.getD_some]
          exact Nat.le_of_lt (List.findIdx?_eq_some_iff_findIdx_eq.mp hf).1
      have he : (st.candidateList.eraseIdx pos).length + 1 = st.candidateList.length :=
        List.length_eraseIdx_add_one hlt
      simp only [List.length_insertIdx _ _ hnp]
      omega

theorem doUnstake_nopenalty_frame (cfg : Config) (now : Nat) (a b : Acct)
    (st : PState) (out : Bal × PState)
    (h : doUnstake cfg now a b false none st = .ok out) :
    out.2.unstaking = st.unstaking ∧
    out.2.candidateList = st.candidateList ∧
    out.2.lastAuthoredBlock = st.lastAuthoredBlock := by
  simp only [doUnstake] at h
  split at h
  · injection h with h2
    subst h2
    exact ⟨rfl, rfl, rfl⟩
  · simp only [Bool.false_eq_true, if_false] at h
    injection h with h2
    subst h2
    exact ⟨rfl, rfl, rfl⟩

theorem tryRemove_nopenalty_frame (cfg : Config) (now : Nat) (idx : Nat)
    (la : Bool) (st : PState) (out : CandidateInfo × PState)
    (h : tryRemoveCandidateAtPosition cfg now idx la false st = .ok out) :
    out.2.unstaking = st.unstaking ∧
    out.2.candidateList = st.candidateList.eraseIdx idx := by
  simp only [tryRemoveCandidateAtPosition] at h
  split at h
  case isFalse hlt => exact absurd h (by simp)
  case isTrue hlt =>
    split at h
    · exact absurd h (by simp)
    · rename_i b r heq
      injection h with h2
      subst h2
      have h1 : r.unstaking = _ := (doUnstake_nopenalty_frame _ _ _ _ _ _ heq).1
      refine ⟨?_, rfl⟩
      show r.unstaking = st.unstaking
      rw [h1]
      split <;> rfl

theorem kickStep_spec (cfg : Config) (now : Nat) (acc : List Acct × PState)
    (pc : Nat × Acct) (out : List Acct × PState)
    (h : kickStep cfg now acc pc = some out) :
    out.2.unstaking = acc.2.unstaking ∧ out.1.length ≤ acc.1.length + 1 ∧
    out.2.candidateList.length ≤ acc.2.candidateList.length := by
  simp only [kickStep] at h
  split at h
  · split at h
    · rename_i r heq
      injection h with h2
      subst h2
      have hf := tryRemove_nopenalty_frame _ _ _ _ _ _ heq
      refine ⟨hf.1, Nat.le_succ _, ?_⟩
      rw [hf.2]
      exact List.length_eraseIdx_le _ _
    · exact absurd h (by simp)
    · injection h with h2
      subst h2
      exact ⟨rfl, Nat.le_succ _, Nat.le_refl _⟩
  · split at h
    · injection h with h2
      subst h2
      refine ⟨rfl, by simp, Nat.le_refl _⟩
    · split at h
      · rename_i r heq
        injection h with h2
        subst h2
        have hf := tryRemove_nopenalty_frame _ _ _ _ _ _ heq
        refine ⟨hf.1, Nat.le_succ _, ?_⟩
        rw [hf.2]
        exact List.length_eraseIdx_le _ _
      · exact absurd h (by simp)
      · injection h with h2
        subst h2
        exact ⟨rfl, Nat.le_succ _, Nat.le_refl _⟩

theorem kickFold_spec (cfg : Config) (now : Nat) :
    ∀ (l : List (Nat × Acct)) (acc out : List Acct × PState),
      List.foldlM (kickStep cfg now) acc l = some out →
      out.2.unstaking = acc.2.unstaking ∧
      out.1.length ≤ acc.1.length + l.length ∧
      out.2.candidateList.length ≤ acc.2.candidateList.length := by
  intro l
  induction l with
  | nil =>
    intro acc out h
    simp only [List.foldlM] at h
    injection h with h2
    subst h2
    exact ⟨rfl, by omega, Nat.le_refl _⟩
  | cons x t ih =>
    intro acc out h
    simp only [List.foldlM] at h
    cases hstep : kickStep cfg now acc x with
    | none => rw [hstep] at h; exact absurd h (by simp)
    | some acc1 =>
      rw [hstep] at h
      have h1 := kickStep_spec cfg now acc x acc1 hstep
      have h2 := ih acc1 out h
      refine ⟨h2.1.trans h1.1, ?_, h2.2.2.trans h1.2.2⟩
      have := h2.2.1
      have := h1.2.1
      simp only [List.length_cons]
      omega

/-! ## Amended claim theorems -/

/-- C3 (amended): the eviction pass decides each snapshot candidate as:
invulnerable — removed without penalty; otherwise retained when the
eligible-collator count has reached the floor or the candidate authored
within the kick window; otherwise removed *without* penalty (immediate
refund; no below-bond condition exists).  Formally: a completed pass
never enqueues an unstake request — the unstaking queues are exactly
those of the initial state — and the returned count (the number
retained) is at most the number of processed candidates. -/
theorem C3_kick_no_penalty (cfg : Config) (now : Nat) (st : PState)
    (cands : List Acct) (out : List Acct × PState)
    (h : kickStaleCandidates cfg now st cands = some out) :
    out.2.unstaking = st.unstaking ∧ out.1.length ≤ cands.length := by
  have hk := kickFold_spec cfg now cands.enum ([], st) out h
  refine ⟨hk.1, ?_⟩
  have h2 := hk.2.1
  simpa [List.enum_length] using h2

theorem C3_kick_no_penalty_witness :
    kickStaleCandidates cfgA 0 stC9 [1] = some ([1], stC9) ∧
    stC9.unstaking = stC9.unstaking ∧
    ([1] : List Acct).length ≤ ([1] : List Acct).length :=
  ⟨rfl, (C3_kick_no_penalty cfgA 0 stC9 [1] ([1], stC9) rfl).1,
    (C3_kick_no_penalty cfgA 0 stC9 [1] ([1], stC9) rfl).2⟩

/-- C9 (amended): removing stake for a candidate on which the caller has
no ledger entry is a successful no-op: `unstake_from` returns `Ok` and
the state is unchanged (there is no `NothingToUnstake` error). -/
theorem C9_zero_unstake_noop (cfg : Config) (now : Nat)
    (who candidate : Acct) (st : PState)
    (h : mfind st.stake (candidate, who) = none) :
    unstakeFrom cfg now who candidate st = .ok st := by
  have hz : mget st.stake (candidate, who) = 0 := by simp [mget, h]
  have hst : ({ st with stake := mdel st.stake (candidate, who) } : PState) = st := by
    have hd := mdel_of_absent st.stake (candidate, who) h
    cases st
    simp only at hd ⊢
    rw [hd]
  simp only [unstakeFrom, doUnstake, hz]
  cases getCandidatePos st candidate <;> simp [hst, Except.map]

theorem C9_zero_unstake_noop_witness :
    mfind stC2.stake (7, 5) = none ∧
    unstakeFrom cfgA 3 5 7 stC2 = .ok stC2 :=
  ⟨by decide, C9_zero_unstake_noop cfgA 3 5 7 stC2 (by decide)⟩

/-- C6 (amended): an unstake under penalty *appends* the new request
`{ unlock = now + delay, amount }` at the end of the staker's queue (no
sorted insertion), and fails with `TooManyUnstakingRequests` exactly when
the queue already holds `MaxStakedCandidates` requests (its capacity). -/
theorem C6_enqueue_appends (cfg : Config) (now : Nat)
    (staker candidate : Acct) (st : PState) (s : Bal)
    (q : List UnstakeRequest)
    (hs : mget st.stake (candidate, staker) = s) (hnz : s ≠ 0)
    (hq : (mfind st.unstaking staker).getD [] = q) :
    (q.length < cfg.maxStakedCandidates →
      (doUnstake cfg now staker candidate true none st).map
          (fun r => (mfind r.2.unstaking staker).getD []) =
        .ok (q ++ [⟨now + (if staker = candidate then cfg.collatorUnstakingDelay
          else cfg.userUnstakingDelay), s⟩])) ∧
    (¬ q.length < cfg.maxStakedCandidates →
      doUnstake cfg now staker candidate true none st =
        .error .tooManyUnstakingRequests) := by
  subst hs hq
  constructor
  · intro hlt
    simp [doUnstake, hnz, hlt, mfind_mset_same, Except.map]
  · intro hge
    simp [doUnstake, hnz, hge]

theorem C6_enqueue_appends_witness :
    mget stC6.stake (2, 1) = 20 ∧ (20 : Bal) ≠ 0 ∧
    (mfind stC6.unstaking 1).getD [] = [] ∧
    (([] : List UnstakeRequest).length < cfgA.maxStakedCandidates →
      (doUnstake cfgA 2 1 2 true none stC6).map
          (fun r => (mfind r.2.unstaking 1).getD []) =
        .ok ([] ++ [⟨2 + (if (1 : Acct) = 2 then cfgA.collatorUnstakingDelay
          else cfgA.userUnstakingDelay), 20⟩])) ∧
    (¬ ([] : List UnstakeRequest).length < cfgA.maxStakedCandidates →
      doUnstake cfgA 2 1 2 true none stC6 =
        .error .tooManyUnstakingRequests) :=
  ⟨by decide, by decide, by decide,
    (C6_enqueue_appends cfgA 2 1 2 stC6 20 [] (by decide) (by decide) (by decide)).1,
    (C6_enqueue_appends cfgA 2 1 2 stC6 20 [] (by decide) (by decide) (by decide)).2⟩

theorem claimLoop_spec (now : Nat) (who : Acct) :
    ∀ (q : List UnstakeRequest) (st : PState),
      ((q.takeWhile (fun r => decide (r.block ≤ now))).map
        (fun r => r.amount)).sum ≤ mget st.reservedBal who →
      (claimLoop now who q st).1 =
        q.dropWhile (fun r => decide (r.block ≤ now)) ∧
      (claimLoop now who q st).2.unstaking = st.unstaking ∧
      mget (claimLoop now who q st).2.reservedBal who =
        mget st.reservedBal who -
          ((q.takeWhile (fun r => decide (r.block ≤ now))).map
            (fun r => r.amount)).sum ∧
      mget (claimLoop now who q st).2.freeBal who =
        mget st.freeBal who +
          ((q.takeWhile (fun r => decide (r.block ≤ now))).map
            (fun r => r.amount)).sum := by
  intro q
  induction q with
  | nil => intro st hres; simp [claimLoop]
  | cons r rs ih =>
    intro st hres
    by_cases hb : now < r.block
    · have hp : decide (r.block ≤ now) = false := by
        simp only [decide_eq_false_iff_not]; omega
      simp [claimLoop, hb, List.takeWhile_cons, List.dropWhile_cons, hp]
    · have hp : decide (r.block ≤ now) = true := by
        simp only [decide_eq_true_eq]; omega
      have hstep : claimLoop now who (r :: rs) st =
          claimLoop now who rs (unreserveF st who r.amount) := by
        simp [claimLoop, hb]
      rw [List.takeWhile_cons_of_pos
        (p := fun x : UnstakeRequest => decide (x.block ≤ now)) (a := r)
        (l := rs) hp] at hres
      simp only [List.map_cons, List.sum_cons] at hres
      have hra : r.amount ≤ mget st.reservedBal who :=
        le_trans (Nat.le_add_right _ _) hres
      have hmin : min r.amount (mget st.reservedBal who) = r.amount :=
        Nat.min_eq_left hra
      have h1res : mget (unreserveF st who r.amount).reservedBal who =
          mget st.reservedBal who - r.amount := by
        simp [unreserveF, mget_mset_same, hmin]
      have h1free : mget (unreserveF st who r.amount).freeBal who =
          mget st.freeBal who + r.amount := by
        simp [unreserveF, mget_mset_same, hmin]
      have h1un : (unreserveF st who r.amount).unstaking = st.unstaking := rfl
      have hres2 : ((rs.takeWhile (fun r => decide (r.block ≤ now))).map
          (fun r => r.amount)).sum ≤
          mget (unreserveF st who r.amount).reservedBal who := by
        rw [h1res]
        exact Nat.le_sub_of_add_le (by rwa [Nat.add_comm] at hres)
      obtain ⟨i1, i2, i3, i4⟩ := ih (unreserveF st who r.amount) hres2
      rw [hstep]
      refine ⟨?_, ?_, ?_, ?_⟩
      · rw [i1, List.dropWhile_cons_of_pos
          (p := fun x : UnstakeRequest => decide (x.block ≤ now)) (a := r)
          (l := rs) hp]
      · rw [i2, h1un]
      · rw [i3, h1res, List.takeWhile_cons_of_pos
          (p := fun x : UnstakeRequest => decide (x.block ≤ now)) (a := r)
          (l := rs) hp]
        simp only [List.map_cons, List.sum_cons]
        rw [Nat.sub_sub]
      · rw [i4, h1free, List.takeWhile_cons_of_pos
          (p := fun x : UnstakeRequest => decide (x.block ≤ now)) (a := r)
          (l := rs) hp]
        simp only [List.map_cons, List.sum_cons]
        rw [Nat.add_assoc]

/-- C7 (amended): a request created under penalty unlocks at the current
block plus the collator delay when the staker is the candidate itself,
and the user delay otherwise (it is appended at the end of the queue);
`claim` releases exactly the maximal *prefix* of due requests: the queue
becomes its `dropWhile (unlock ≤ now)` suffix and exactly the sum of the
dropped requests' amounts moves from reserved to free — so a request
ahead of any not-yet-due one is untouched, and nothing is released
before its unlock block. -/
theorem C7_delay_and_claim_prefix (cfg : Config) (now : Nat)
    (staker candidate who : Acct) (st su : PState) (s : Bal)
    (q qc : List UnstakeRequest)
    (hs : mget st.stake (candidate, staker) = s) (hnz : s ≠ 0)
    (hq : (mfind st.unstaking staker).getD [] = q)
    (hcap : q.length < cfg.maxStakedCandidates)
    (hqc : (mfind su.unstaking who).getD [] = qc)
    (hres : ((qc.takeWhile (fun r => decide (r.block ≤ now))).map
      (fun r => r.amount)).sum ≤ mget su.reservedBal who) :
    (doUnstake cfg now staker candidate true none st).map
        (fun r => ((mfind r.2.unstaking staker).getD []).getLast?) =
      .ok (some ⟨now + (if staker = candidate then cfg.collatorUnstakingDelay
        else cfg.userUnstakingDelay), s⟩) ∧
    (mfind (doClaim now who su).unstaking who).getD [] =
      qc.dropWhile (fun r => decide (r.block ≤ now)) ∧
    mget (doClaim now who su).reservedBal who =
      mget su.reservedBal who -
        ((qc.takeWhile (fun r => decide (r.block ≤ now))).map
          (fun r => r.amount)).sum ∧
    mget (doClaim now who su).freeBal who =
      mget su.freeBal who +
        ((qc.takeWhile (fun r => decide (r.block ≤ now))).map
          (fun r => r.amount)).sum := by
  obtain ⟨c1, c2, c3, c4⟩ := claimLoop_spec now who qc su hres
  refine ⟨?_, ?_, ?_, ?_⟩
  · subst hs hq
    simp [doUnstake, hnz, hcap, mfind_mset_same, Except.map,
      List.getLast?_concat]
  · subst hqc
    simp only [doClaim, mfind_mset_same, Option.getD_some]
    exact c1
  · subst hqc
    simp only [doClaim]
    exact c3
  · subst hqc
    simp only [doClaim]
    exact c4

theorem C7_delay_and_claim_prefix_witness :
    mget stC6.stake (1, 1) = 10 ∧ (10 : Bal) ≠ 0 ∧
    (mfind stC6.unstaking 1).getD [] = [] ∧
    (([] : List UnstakeRequest).length < cfgA.maxStakedCandidates) ∧
    (mfind stC2.unstaking 4).getD [] = [] ∧
    ((([] : List UnstakeRequest).takeWhile
      (fun r => decide (r.block ≤ 1))).map (fun r => r.amount)).sum ≤
      mget stC2.reservedBal 4 ∧
    (doUnstake cfgA 1 1 1 true none stC6).map
        (fun r => ((mfind r.2.unstaking 1).getD []).getLast?) =
      .ok (some ⟨1 + (if (1 : Acct) = 1 then cfgA.collatorUnstakingDelay
        else cfgA.userUnstakingDelay), 10⟩) ∧
    (mfind (doClaim 1 4 stC2).unstaking 4).getD [] =
      ([] : List UnstakeRequest).dropWhile (fun r => decide (r.block ≤ 1)) ∧
    mget (doClaim 1 4 stC2).reservedBal 4 =
      mget stC2.reservedBal 4 -
        ((([] : List UnstakeRequest).takeWhile
          (fun r => decide (r.block ≤ 1))).map (fun r => r.amount)).sum ∧
    mget (doClaim 1 4 stC2).freeBal 4 =
      mget stC2.freeBal 4 +
        ((([] : List UnstakeRequest).takeWhile
          (fun r => decide (r.block ≤ 1))).map (fun r => r.amount)).sum := by
  have hmain := C7_delay_and_claim_prefix cfgA 1 1 1 4 stC6 stC2 10 [] []
    (by decide) (by decide) (by decide) (by decide) (by decide) (by decide)
  exact ⟨by decide, by decide, by decide, by decide, by decide, by decide,
    hmain.1, hmain.2.1, hmain.2.2.1, hmain.2.2.2⟩

theorem transferKeepAlive_apply (cfg : Config) (st : PState)
    (src dst : Acct) (amt : Bal)
    (h : amt + cfg.existentialDeposit ≤ mget st.freeBal src)
    (hne : dst ≠ src) :
    ∃ st1, transferKeepAlive cfg st src dst amt = some st1 ∧
      mget st1.freeBal dst = mget st.freeBal dst + amt ∧
      st1.candidateList = st.candidateList ∧ st1.stake = st.stake ∧
      st1.unstaking = st.unstaking ∧ st1.reservedBal = st.reservedBal := by
  simp only [transferKeepAlive]
  rw [if_pos h]
  refine ⟨_, rfl, ?_, rfl, rfl, rfl, rfl⟩
  rw [mget_mset_same, mget_mset_ne _ _ _ _ hne]

theorem reassign_ok_of_lt (cfg : Config) (pos : Nat) (st : PState)
    (hlen : pos < st.candidateList.length)
    (hmax : st.candidateList.length ≤ cfg.maxCandidates) :
    ∃ n2 st2, reassignCandidatePosition cfg pos st = .ok (n2, st2) ∧
      st2.freeBal = st.freeBal ∧ st2.reservedBal = st.reservedBal ∧
      st2.stake = st.stake ∧ st2.unstaking = st.unstaking := by
  simp only [reassignCandidatePosition]
  rw [if_pos hlen, if_pos ?hc]
  case hc =>
    have := List.length_eraseIdx_add_one hlen
    omega
  exact ⟨_, _, rfl, rfl, rfl, rfl, rfl⟩

theorem stakeEntriesOf_congr (st1 st : PState) (c : Acct)
    (h : st1.stake = st.stake) :
    stakeEntriesOf st1 c = stakeEntriesOf st c := by
  simp [stakeEntriesOf, h]

/-- C4 (amended): when the rewarded collator is still a candidate, its
share equals `reward_percentage × (total_pool × blocks_produced /
TotalBlocks(session)) / 100` under integer floor division, where
`TotalBlocks` counts *all* blocks authored that session — including those
by invulnerables; there is no zero-denominator (or zero-stake) skip.
Stated for a collator without stakers and a sufficiently funded pot: the
disbursement succeeds and credits exactly that share. -/
theorem C4_collator_share (cfg : Config) (collator : Acct)
    (blocks session pos : Nat) (st : PState)
    (hpos : getCandidatePos st collator = some pos)
    (hlen : pos < st.candidateList.length)
    (hmax : st.candidateList.length ≤ cfg.maxCandidates)
    (ht : mget st.totalBlocks session ≠ 0)
    (hns : stakeEntriesOf st collator = [])
    (hpot : collator ≠ cfg.potAccount)
    (hfund : st.collatorRewardPct * (mget st.rewards session * blocks /
        mget st.totalBlocks session) / 100 + cfg.existentialDeposit ≤
      mget st.freeBal cfg.potAccount) :
    (doRewardCollator cfg collator blocks session st).map
        (fun s => mget s.freeBal collator) =
      some (mget st.freeBal collator +
        st.collatorRewardPct * (mget st.rewards session * blocks /
          mget st.totalBlocks session) / 100) := by
  obtain ⟨st1, htr, hdst, hcl, hsk, hun, hrv⟩ :=
    transferKeepAlive_apply cfg st cfg.potAccount collator
      (st.collatorRewardPct * (mget st.rewards session * blocks /
        mget st.totalBlocks session) / 100) hfund hpot
  have hlen1 : pos < st1.candidateList.length := by rw [hcl]; exact hlen
  have hmax1 : st1.candidateList.length ≤ cfg.maxCandidates := by
    rw [hcl]; exact hmax
  obtain ⟨n2, st2, hre, hf2, hr2, hs2, hu2⟩ :=
    reassign_ok_of_lt cfg pos st1 hlen1 hmax1
  simp only [doRewardCollator, hpos, doRewardSingle]
  rw [if_neg ht, htr]
  simp only [Option.getD_some]
  rw [stakeEntriesOf_congr st1 st collator hsk, hns]
  simp only [List.foldlM_nil, pure, Option.some_bind]
  rw [hre]
  simp [hf2, hdst]

theorem reserveF_frame (st : PState) (a : Acct) (amt : Bal) (st1 : PState)
    (h : reserveF st a amt = some st1) :
    st1.candidateList = st.candidateList ∧ st1.unstaking = st.unstaking := by
  simp only [reserveF] at h
  split at h
  · injection h with h2
    subst h2
    exact ⟨rfl, rfl⟩
  · exact absurd h (by simp)

theorem addStake_frame (cfg : Config) (staker : Acct) (amount : Bal)
    (candidate : CandidateInfo) (st : PState)
    (out : CandidateInfo × Bal × PState)
    (h : addStakeToCandidate cfg staker amount candidate st = .ok out) :
    out.2.2.candidateList = st.candidateList ∧
    out.2.2.unstaking = st.unstaking := by
  simp only [addStakeToCandidate] at h
  split at h
  · exact absurd h (by simp)
  · split at h
    · exact absurd h (by simp)
    · rename_i st1 heq
      injection h with h2
      subst h2
      have hf := reserveF_frame st staker amount st1 heq
      exact ⟨hf.1, hf.2⟩

theorem doStakeAtPosition_len (cfg : Config) (staker : Acct) (amount : Bal)
    (pos : Nat) (sort : Bool) (st : PState) (out : Nat × PState)
    (h : doStakeAtPosition cfg staker amount pos sort st = .ok out) :
    out.2.candidateList.length = st.candidateList.length := by
  simp only [doStakeAtPosition] at h
  split at h
  case isFalse => exact absurd h (by simp)
  case isTrue hlt =>
    split at h
    · exact absurd h (by simp)
    · rename_i c2 b2 st1 heq
      have hfr := addStake_frame _ _ _ _ _ _ heq
      split at h
      · have hr := reassign_frame _ _ _ _ h
        rw [hr.1]
        have : st1.candidateList = st.candidateList := hfr.1
        rw [this]
      · injection h with h2
        subst h2
        have : st1.candidateList = st.candidateList := hfr.1
        show st1.candidateList.length = st.candidateList.length
        rw [this]

theorem claimLoop_candidateList (now : Nat) (who : Acct) :
    ∀ (q : List UnstakeRequest) (st : PState),
      (claimLoop now who q st).2.candidateList = st.candidateList := by
  intro q
  induction q with
  | nil => intro st; rfl
  | cons r rs ih =>
    intro st
    by_cases hb : now < r.block
    · simp [claimLoop, hb]
    · simp only [claimLoop, hb, if_neg hb]
      exact ih (unreserveF st who r.amount)

theorem doUnstake_len (cfg : Config) (now : Nat) (a b : Acct) (hp : Bool)
    (mp : Option Nat) (st : PState) (out : Bal × PState)
    (h : doUnstake cfg now a b hp mp st = .ok out) :
    out.2.candidateList.length = st.candidateList.length := by
  simp only [doUnstake] at h
  by_cases hz : mget st.stake (b, a) = 0
  · rw [if_pos hz] at h
    injection h with h2
    subst h2
    rfl
  · rw [if_neg hz] at h
    cases hp with
    | false =>
      simp only [Bool.false_eq_true, if_false] at h
      split at h
      · injection h with h2
        subst h2
        rfl
      · split at h
        · exact absurd h (by simp)
        · rename_i p2 st2 heq2
          injection h with h2
          subst h2
          exact (reassign_frame _ _ _ _ heq2).1
    | true =>
      simp only [if_true] at h
      split at h
      · exact absurd h (by simp)
      · rename_i st1 heq
        have hcl : st1.candidateList = st.candidateList := by
          split at heq
          · injection heq with h3
            subst h3
            rfl
          · exact absurd heq (by simp)
        split at h
        · injection h with h2
          subst h2
          show st1.candidateList.length = st.candidateList.length
          rw [hcl]
        · split at h
          · exact absurd h (by simp)
          · rename_i p2 st2 heq2
            injection h with h2
            subst h2
            have h4 := (reassign_frame _ _ _ _ heq2).1
            show st2.candidateList.length = st.candidateList.length
            rw [show st2.candidateList.length = st1.candidateList.length from h4, hcl]

theorem register_ok_len (cfg : Config) (now : Nat) (who : Acct)
    (st : PState) (out : PState)
    (h : registerAsCandidate cfg now who st = .ok out) :
    out.candidateList.length ≤ cfg.maxCandidates := by
  simp only [registerAsCandidate] at h
  split at h
  · exact absurd h (by simp)
  · split at h
    · exact absurd h (by simp)
    · split at h
      · exact absurd h (by simp)
      · simp only [doRegisterAsCandidate] at h
        split at h
        · exact absurd h (by simp)
        · split at h
          case isFalse => exact absurd h (by simp)
          case isTrue hlt2 =>
            split at h
            · exact absurd h (by simp)
            · rename_i p2 st2 heq
              injection h with h2
              subst h2
              simp only [List.length_cons]
              omega

theorem stakeCall_len (cfg : Config) (who candidate : Acct) (amount : Bal)
    (st : PState) (out : PState)
    (h : stakeCall cfg who candidate amount st = .ok out) :
    out.candidateList.length = st.candidateList.length := by
  simp only [stakeCall, doStakeForAccount] at h
  split at h
  · exact absurd h (by simp [Except.map])
  · rename_i pos hpos
    cases hds : doStakeAtPosition cfg who amount pos true st with
    | error e =>
      rw [hds] at h
      exact absurd h (by simp [Except.map])
    | ok r =>
      rw [hds] at h
      simp only [Except.map] at h
      injection h with h2
      subst h2
      exact doStakeAtPosition_len _ _ _ _ _ _ _ hds

theorem unstakeFrom_len (cfg : Config) (now : Nat) (who candidate : Acct)
    (st : PState) (out : PState)
    (h : unstakeFrom cfg now who candidate st = .ok out) :
    out.candidateList.length = st.candidateList.length := by
  simp only [unstakeFrom] at h
  split at h <;> rename_i hpos
  all_goals
    rename_i x
  case h_1 =>
    cases hdu : doUnstake cfg now who candidate true (some x) st with
    | error e => rw [hdu] at h; exact absurd h (by simp [Except.map])
    | ok r =>
      rw [hdu] at h
      simp only [Except.map] at h
      injection h with h2
      subst h2
      exact doUnstake_len _ _ _ _ _ _ _ _ hdu
  case h_2 =>
    cases hdu : doUnstake cfg now who candidate false none st with
    | error e => rw [hdu] at h; exact absurd h (by simp [Except.map])
    | ok r =>
      rw [hdu] at h
      simp only [Except.map] at h
      injection h with h2
      subst h2
      exact doUnstake_len _ _ _ _ _ _ _ _ hdu

theorem takeSlot_ok_len (cfg : Config) (now : Nat) (who target : Acct)
    (deposit : Bal) (st : PState) (out : PState)
    (h : takeCandidateSlot cfg now who deposit target st = .ok out) :
    out.candidateList.length ≤ st.candidateList.length := by
  simp only [takeCandidateSlot] at h
  split at h
  · exact absurd h (by simp)
  · split at h
    · exact absurd h (by simp)
    · split at h
      · exact absurd h (by simp)
      · split at h
        · exact absurd h (by simp)
        · split at h
          · exact absurd h (by simp)
          · rename_i ti st1 heq
            split at h
            · injection h with h2
              subst h2
              simp only [tryRemoveCandidateFromAccount] at heq
              split at heq
              · exact absurd heq (by simp)
              · rename_i idx hidx
                have hf := tryRemove_nopenalty_frame _ _ _ _ _ _ heq
                have hcl : st1.candidateList =
                    st.candidateList.eraseIdx idx := hf.2
                rw [hcl]
                exact List.length_eraseIdx_le _ _
            · exact absurd h (by simp)

theorem setBond_len (bond : Bal) (st : PState) :
    (setCandidacyBond bond st).candidateList.length ≤
      st.candidateList.length := by
  simp only [setCandidacyBond]
  split
  · simp only [List.length_drop]
    omega
  · exact Nat.le_refl _

theorem doClaim_candidateList (now : Nat) (who : Acct) (st : PState) :
    (doClaim now who st).candidateList = st.candidateList := by
  simp only [doClaim]
  exact claimLoop_candidateList now who _ st

/-- Registry length after an operation (`0` for a failed one). -/
def postLen : Except Err PState → Nat
  | .ok s => s.candidateList.length
  | .error _ => 0

/-- Registry length after the eviction pass (`0` on panic). -/
def postLenO : Option (List Acct × PState) → Nat
  | some x => x.2.candidateList.length
  | none => 0

/-- C8 (amended): the Candidate Registry length never exceeds
`MaxCandidates`: every embedded public operation — registration, staking,
unstaking, slot-taking, bond updates, claiming and the session eviction
pass — preserves the bound.  The claim's per-staker bound
(`MaxStakedCandidates`) and per-candidate staker bound (`MaxStakers`) are
not enforced by the code (no such checks, and no `MaxStakers` constant,
exist). -/
theorem C8_registry_length_bound (cfg : Config) (now : Nat)
    (who candidate target : Acct) (amount deposit bond : Bal)
    (cands : List Acct) (st : PState)
    (hmax : st.candidateList.length ≤ cfg.maxCandidates) :
    postLen (registerAsCandidate cfg now who st) ≤ cfg.maxCandidates ∧
    postLen (stakeCall cfg who candidate amount st) ≤ cfg.maxCandidates ∧
    postLen (unstakeFrom cfg now who candidate st) ≤ cfg.maxCandidates ∧
    postLen (takeCandidateSlot cfg now who deposit target st) ≤
      cfg.maxCandidates ∧
    (setCandidacyBond bond st).candidateList.length ≤ cfg.maxCandidates ∧
    (doClaim now who st).candidateList.length ≤ cfg.maxCandidates ∧
    postLenO (kickStaleCandidates cfg now st cands) ≤ cfg.maxCandidates := by
  refine ⟨?_, ?_, ?_, ?_, ?_, ?_, ?_⟩
  · cases hr : registerAsCandidate cfg now who st with
    | error e => simp [postLen]
    | ok s => simpa [postLen] using register_ok_len cfg now who st s hr
  · cases hr : stakeCall cfg who candidate amount st with
    | error e => simp [postLen]
    | ok s =>
      have := stakeCall_len cfg who candidate amount st s hr
      simp only [postLen]
      omega
  · cases hr : unstakeFrom cfg now who candidate st with
    | error e => simp [postLen]
    | ok s =>
      have := unstakeFrom_len cfg now who candidate st s hr
      simp only [postLen]
      omega
  · cases hr : takeCandidateSlot cfg now who deposit target st with
    | error e => simp [postLen]
    | ok s =>
      have := takeSlot_ok_len cfg now who target deposit st s hr
      simp only [postLen]
      omega
  · exact le_trans (setBond_len bond st) hmax
  · rw [doClaim_candidateList]
    exact hmax
  · cases hr : kickStaleCandidates cfg now st cands with
    | none => simp [postLenO]
    | some out =>
      have h2 : out.2.candidateList.length ≤ st.candidateList.length :=
        (kickFold_spec cfg now cands.enum ([], st) out hr).2.2
      simp only [postLenO]
      omega

theorem C8_registry_length_bound_witness :
    stC9.candidateList.length ≤ cfgA.maxCandidates ∧
    (postLen (registerAsCandidate cfgA 1 6 stC9) ≤ cfgA.maxCandidates ∧
     postLen (stakeCall cfgA 2 1 5 stC9) ≤ cfgA.maxCandidates ∧
     postLen (unstakeFrom cfgA 1 2 1 stC9) ≤ cfgA.maxCandidates ∧
     postLen (takeCandidateSlot cfgA 1 2 50 1 stC9) ≤ cfgA.maxCandidates ∧
     (setCandidacyBond 15 stC9).candidateList.length ≤ cfgA.maxCandidates ∧
     (doClaim 1 2 stC9).candidateList.length ≤ cfgA.maxCandidates ∧
     postLenO (kickStaleCandidates cfgA 1 stC9 [1]) ≤ cfgA.maxCandidates) :=
  ⟨by decide, C8_registry_length_bound cfgA 1 2 1 1 5 50 15 [1] stC9 (by decide)⟩

/-- Candidate 4 with no stakers; session 0 counted 2 blocks; the pot is
funded. -/
def stW4 : PState :=
  { baseState with
    candidateList := [⟨4, 10⟩]
    rewards := [(0, 100)]
    totalBlocks := [(0, 2)]
    freeBal := [(0, 101)] }

theorem C4_collator_share_witness :
    getCandidatePos stW4 4 = some 0 ∧
    0 < stW4.candidateList.length ∧
    stW4.candidateList.length ≤ cfgA.maxCandidates ∧
    mget stW4.totalBlocks 0 ≠ 0 ∧
    stakeEntriesOf stW4 4 = [] ∧
    (4 : Acct) ≠ cfgA.potAccount ∧
    stW4.collatorRewardPct * (mget stW4.rewards 0 * 1 /
        mget stW4.totalBlocks 0) / 100 + cfgA.existentialDeposit ≤
      mget stW4.freeBal cfgA.potAccount ∧
    (doRewardCollator cfgA 4 1 0 stW4).map (fun s => mget s.freeBal 4) =
      some (mget stW4.freeBal 4 +
        stW4.collatorRewardPct * (mget stW4.rewards 0 * 1 /
          mget stW4.totalBlocks 0) / 100) :=
  ⟨by decide, by decide, by decide, by decide, by decide, by decide, by decide,
    C4_collator_share cfgA 4 1 0 0 stW4 (by decide) (by decide) (by decide)
      (by decide) (by decide) (by decide) (by decide)⟩

theorem drop_findIdx_eq_dropWhile {α : Type} (p : α → Bool) :
    ∀ l : List α,
      l.drop ((l.findIdx? p).getD l.length) =
        l.dropWhile (fun c => !(p c)) := by
  intro l
  induction l with
  | nil => rfl
  | cons x t ih =>
    by_cases hx : p x
    · simp [List.findIdx?_cons, hx, List.dropWhile_cons]
    · simp only [List.findIdx?_cons, hx, if_false, List.findIdx?_start_succ,
        Bool.false_eq_true, List.dropWhile_cons, Bool.not_false, if_true]
      cases hf : t.findIdx? p with
      | none =>
        simp only [hf, Option.map_none', Option.getD_none, List.length_cons,
          List.drop_succ_cons]
        rw [hf] at ih
        simpa using ih
      | some i =>
        simp only [hf, Option.map_some', Option.getD_some, List.drop_succ_cons]
        rw [hf] at ih
        simpa using ih

theorem take_findIdx_eq_takeWhile {α : Type} (p : α → Bool) :
    ∀ l : List α,
      l.take ((l.findIdx? p).getD l.length) =
        l.takeWhile (fun c => !(p c)) := by
  intro l
  induction l with
  | nil => rfl
  | cons x t ih =>
    by_cases hx : p x
    · simp [List.findIdx?_cons, hx, List.takeWhile_cons]
    · simp only [List.findIdx?_cons, hx, if_false, List.findIdx?_start_succ,
        Bool.false_eq_true, List.takeWhile_cons, Bool.not_false, if_true]
      cases hf : t.findIdx? p with
      | none =>
        simp only [hf, Option.map_none', Option.getD_none, List.length_cons,
          List.take_succ_cons]
        rw [hf] at ih
        simpa using ih
      | some i =>
        simp only [hf, Option.map_some', Option.getD_some, List.take_succ_cons]
        rw [hf] at ih
        simpa using ih

theorem dropWhile_takeWhile_filter_sorted (bond : Bal) :
    ∀ l : List CandidateInfo,
      l.Pairwise (fun x y => x.deposit ≤ y.deposit) →
      l.dropWhile (fun c => !(decide (bond ≤ c.deposit))) =
        l.filter (fun c => decide (bond ≤ c.deposit)) ∧
      l.takeWhile (fun c => !(decide (bond ≤ c.deposit))) =
        l.filter (fun c => !(decide (bond ≤ c.deposit))) := by
  intro l
  induction l with
  | nil => intro hp; exact ⟨rfl, rfl⟩
  | cons x t ih =>
    intro hp
    rw [List.pairwise_cons] at hp
    obtain ⟨hx, ht⟩ := hp
    obtain ⟨ihd, iht⟩ := ih ht
    by_cases hb : bond ≤ x.deposit
    · have hall : ∀ y ∈ t, decide (bond ≤ y.deposit) = true := by
        intro y hy
        simp only [decide_eq_true_eq]
        exact le_trans hb (hx y hy)
      constructor
      · rw [List.dropWhile_cons_of_neg (by simp [hb]),
          List.filter_cons_of_pos (by simp [hb]),
          List.filter_eq_self.mpr hall]
      · rw [List.takeWhile_cons_of_neg (by simp [hb]),
          List.filter_cons_of_neg (by simp [hb])]
        symm
        rw [List.filter_eq_nil_iff]
        intro y hy
        simp [hall y hy]
    · constructor
      · rw [List.dropWhile_cons_of_pos (by simp [hb]),
          List.filter_cons_of_neg (by simp [hb]), ihd]
      · rw [List.takeWhile_cons_of_pos (by simp [hb]),
          List.filter_cons_of_pos (by simp [hb]), iht]

theorem mfind_foldl_mdel_none (a : Acct) :
    ∀ (ks : List CandidateInfo) (m : List (Acct × Nat)),
      mfind m a = none →
      mfind (ks.foldl (fun mm c => mdel mm c.who) m) a = none := by
  intro ks
  induction ks with
  | nil => intro m h; exact h
  | cons k t ih =>
    intro m h
    simp only [List.foldl_cons]
    apply ih
    by_cases hk : a = k.who
    · subst hk
      exact mfind_mdel_same m _
    · rw [mfind_mdel_ne m k.who a hk]
      exact h

theorem mfind_foldl_mdel_mem (a : Acct) :
    ∀ (ks : List CandidateInfo) (m : List (Acct × Nat)),
      a ∈ ks.map CandidateInfo.who →
      mfind (ks.foldl (fun mm c => mdel mm c.who) m) a = none := by
  intro ks
  induction ks with
  | nil => intro m h; simp at h
  | cons k t ih =>
    intro m h
    simp only [List.map_cons, List.mem_cons] at h
    simp only [List.foldl_cons]
    rcases h with h | h
    · subst h
      exact mfind_foldl_mdel_none _ t _ (mfind_mdel_same m _)
    · exact ih _ h

theorem mfind_foldl_mdel_not_mem (a : Acct) :
    ∀ (ks : List CandidateInfo) (m : List (Acct × Nat)),
      a ∉ ks.map CandidateInfo.who →
      mfind (ks.foldl (fun mm c => mdel mm c.who) m) a = mfind m a := by
  intro ks
  induction ks with
  | nil => intro m h; rfl
  | cons k t ih =>
    intro m h
    simp only [List.map_cons, List.mem_cons, not_or] at h
    simp only [List.foldl_cons]
    rw [ih _ h.2, mfind_mdel_ne m k.who a h.1]

/-- C10: when `set_candidacy_bond` increases the bond over a
deposit-sorted registry, exactly the candidates whose recorded deposit is
below the new bond are removed (the remaining registry is the filter of
those at or above it) and each removed candidate's last-authored entry is
deleted, while no other state changes for anyone: the stake ledger, free
and reserved balances and the unstaking queues are untouched (no refund,
no unstake request), and the last-authored entries of accounts that were
not kicked are unchanged. -/
theorem C10_bond_increase_frame (bond : Bal) (st : PState) (a : Acct)
    (hsorted : st.candidateList.Pairwise (fun x y => x.deposit ≤ y.deposit))
    (hinc : st.candidacyBond < bond) :
    (setCandidacyBond bond st).candidateList =
      st.candidateList.filter (fun c => decide (bond ≤ c.deposit)) ∧
    (setCandidacyBond bond st).stake = st.stake ∧
    (setCandidacyBond bond st).freeBal = st.freeBal ∧
    (setCandidacyBond bond st).reservedBal = st.reservedBal ∧
    (setCandidacyBond bond st).unstaking = st.unstaking ∧
    ((a ∈ (st.candidateList.filter
        (fun c => !(decide (bond ≤ c.deposit)))).map CandidateInfo.who) →
      mfind (setCandidacyBond bond st).lastAuthoredBlock a = none) ∧
    ((a ∉ (st.candidateList.filter
        (fun c => !(decide (bond ≤ c.deposit)))).map CandidateInfo.who) →
      mfind (setCandidacyBond bond st).lastAuthoredBlock a =
        mfind st.lastAuthoredBlock a) := by
  obtain ⟨hdw, htw⟩ :=
    dropWhile_takeWhile_filter_sorted bond st.candidateList hsorted
  by_cases hlen : 0 < st.candidateList.length
  · have hcond : st.candidacyBond < bond ∧ 0 < st.candidateList.length :=
      ⟨hinc, hlen⟩
    refine ⟨?_, ?_, ?_, ?_, ?_, ?_, ?_⟩
    · simp only [setCandidacyBond, if_pos hcond]
      rw [drop_findIdx_eq_dropWhile (fun c => decide (bond ≤ c.deposit))
        st.candidateList, hdw]
    · simp [setCandidacyBond, if_pos hcond]
    · simp [setCandidacyBond, if_pos hcond]
    · simp [setCandidacyBond, if_pos hcond]
    · simp [setCandidacyBond, if_pos hcond]
    · intro hmem
      simp only [setCandidacyBond, if_pos hcond]
      rw [take_findIdx_eq_takeWhile (fun c => decide (bond ≤ c.deposit))
        st.candidateList, htw]
      exact mfind_foldl_mdel_mem a _ _ hmem
    · intro hnm
      simp only [setCandidacyBond, if_pos hcond]
      rw [take_findIdx_eq_takeWhile (fun c => decide (bond ≤ c.deposit))
        st.candidateList, htw]
      exact mfind_foldl_mdel_not_mem a _ _ hnm
  · have hnil : st.candidateList = [] :=
      List.eq_nil_of_length_eq_zero (by omega)
    have hcond : ¬ (st.candidacyBond < bond ∧ 0 < st.candidateList.length) := by
      rw [hnil]
      simp
    refine ⟨?_, ?_, ?_, ?_, ?_, ?_, ?_⟩
    · simp [setCandidacyBond, if_neg hcond, hnil]
    · simp [setCandidacyBond, if_neg hcond]
    · simp [setCandidacyBond, if_neg hcond]
    · simp [setCandidacyBond, if_neg hcond]
    · simp [setCandidacyBond, if_neg hcond]
    · intro hmem
      rw [hnil] at hmem
      simp at hmem
    · intro hnm
      simp [setCandidacyBond, if_neg hcond]

theorem C10_bond_increase_frame_witness :
    stC10.candidateList.Pairwise (fun x y => x.deposit ≤ y.deposit) ∧
    stC10.candidacyBond < 15 ∧
    ((setCandidacyBond 15 stC10).candidateList =
      stC10.candidateList.filter (fun c => decide ((15 : Bal) ≤ c.deposit)) ∧
    (setCandidacyBond 15 stC10).stake = stC10.stake ∧
    (setCandidacyBond 15 stC10).freeBal = stC10.freeBal ∧
    (setCandidacyBond 15 stC10).reservedBal = stC10.reservedBal ∧
    (setCandidacyBond 15 stC10).unstaking = stC10.unstaking ∧
    ((1 ∈ (stC10.candidateList.filter
        (fun c => !(decide ((15 : Bal) ≤ c.deposit)))).map CandidateInfo.who) →
      mfind (setCandidacyBond 15 stC10).lastAuthoredBlock 1 = none) ∧
    ((1 ∉ (stC10.candidateList.filter
        (fun c => !(decide ((15 : Bal) ≤ c.deposit)))).map CandidateInfo.who) →
      mfind (setCandidacyBond 15 stC10).lastAuthoredBlock 1 =
        mfind stC10.lastAuthoredBlock 1)) :=
  ⟨by decide, by decide,
    C10_bond_increase_frame 15 stC10 1 (by decide) (by decide)⟩
